import Mathlib

/-!
Verification of the self-correcting data-validation agent.

The development shallowly embeds the agent modules:
* `src/agent/graph.py` — the Safe-JSON normalizer `_json_safe`, the
  validate node `_validate`, the retry decision `_should_retry`, and the
  LangGraph run loop `run_agent` (extract → validate → correct → finalize);
* `src/agent/schemas.py` — the pydantic models `Employee`,
  `RejectedRecord`, `ExtractedData` with their field constraints;
* `src/agent/offline_runner.py` — `run_offline_agent`.

Python values flowing through `_json_safe` are modelled by the inductive
`PyVal`; floats are modelled by `PyFloat`, which records exactly the
distinction the code inspects (`math.isnan` / `math.isinf`).  Machine
floats' arithmetic is never used by the code, so finite floats carry a
rational payload.  The textual JSON parsing performed by pydantic's
`model_validate_json` is not re-implemented; runs of the state machine are
parameterised over the parse-and-validate function on raw text, while the
schema constraints themselves are embedded over parsed field values.
-/

namespace Agent

/-- A Python float as `_json_safe` observes it: finite (with its value),
NaN, +inf or -inf. -/
inductive PyFloat where
  | finite (q : ℚ)
  | nan
  | inf
  | neginf
  deriving DecidableEq, Repr

/-- A Python value as passed to `_json_safe`: `None`, bool, int, float,
str, `datetime.date`, dict (string keys, as produced by `model_dump`) or
list. -/
inductive PyVal where
  | none
  | bool (b : Bool)
  | int (n : Int)
  | float (f : PyFloat)
  | str (s : String)
  | date (y m d : Nat)
  | dict (entries : List (String × PyVal))
  | list (elems : List PyVal)
  deriving Repr

mutual

/-- `_json_safe` from `graph.py`: recursively convert NaN/inf to None so
the payload becomes valid JSON.  `None` maps to `None`; a float is kept if
finite and replaced by `None` if NaN or infinite; dicts and lists are
walked recursively; every other object is returned unchanged. -/
def _json_safe : PyVal → PyVal
  | .none => .none
  | .float (.finite q) => .float (.finite q)
  | .float .nan => .none
  | .float .inf => .none
  | .float .neginf => .none
  | .dict es => .dict (_json_safeEntries es)
  | .list vs => .list (_json_safeList vs)
  | .bool b => .bool b
  | .int n => .int n
  | .str s => .str s
  | .date y m d => .date y m d

/-- The dict comprehension `{k: _json_safe(v) for k, v in obj.items()}`. -/
def _json_safeEntries : List (String × PyVal) → List (String × PyVal)
  | [] => []
  | (k, v) :: es => (k, _json_safe v) :: _json_safeEntries es

/-- The list comprehension `[_json_safe(v) for v in obj]`. -/
def _json_safeList : List PyVal → List PyVal
  | [] => []
  | v :: vs => _json_safe v :: _json_safeList vs

end

mutual

theorem _json_safe_idem_aux : ∀ v : PyVal, _json_safe (_json_safe v) = _json_safe v
  | .none => rfl
  | .float (.finite _) => rfl
  | .float .nan => rfl
  | .float .inf => rfl
  | .float .neginf => rfl
  | .dict es => by rw [_json_safe, _json_safe, _json_safeEntries_idem_aux es]
  | .list vs => by rw [_json_safe, _json_safe, _json_safeList_idem_aux vs]
  | .bool _ => rfl
  | .int _ => rfl
  | .str _ => rfl
  | .date _ _ _ => rfl

theorem _json_safeEntries_idem_aux :
    ∀ es : List (String × PyVal), _json_safeEntries (_json_safeEntries es) = _json_safeEntries es
  | [] => rfl
  | (k, v) :: es => by
      rw [_json_safeEntries, _json_safeEntries, _json_safe_idem_aux v,
        _json_safeEntries_idem_aux es]

theorem _json_safeList_idem_aux :
    ∀ vs : List PyVal, _json_safeList (_json_safeList vs) = _json_safeList vs
  | [] => rfl
  | v :: vs => by
      rw [_json_safeList, _json_safeList, _json_safe_idem_aux v, _json_safeList_idem_aux vs]

end

/-- The recursive walk over a dict's values equals a `List.map` over the
entries. -/
theorem _json_safeEntries_eq_map (es : List (String × PyVal)) :
    _json_safeEntries es = es.map (fun kv => (kv.1, _json_safe kv.2)) := by
  induction es with
  | nil => rfl
  | cons kv es ih => cases kv; rw [_json_safeEntries, ih]; rfl

/-- The recursive walk over a list's elements equals a `List.map`. -/
theorem _json_safeList_eq_map (vs : List PyVal) :
    _json_safeList vs = vs.map _json_safe := by
  induction vs with
  | nil => rfl
  | cons v vs ih => rw [_json_safeList, ih]; rfl

/-! ## Record schema (`src/agent/schemas.py`)

The pydantic models are embedded over already-parsed field values: a field
of a candidate holds `none` when the corresponding JSON value is `null` or
the key is absent.  For the three required fields (`user_id`, `name`,
`department`) a missing value is a validation failure; for the optional
fields `none` is accepted and passed through. -/

/-- The closed `Department` literal set. -/
inductive Department where
  | artificialIntelligence
  | aiML
  | machineLearning
  | dataScience
  deriving DecidableEq, Repr

/-- The canonical string of each `Department` literal. -/
def Department.canonical : Department → String
  | .artificialIntelligence => "Artificial Intelligence"
  | .aiML => "AI/ML"
  | .machineLearning => "Machine Learning"
  | .dataScience => "Data Science"

/-- Case-sensitive membership in the `Department` literal set. -/
def Department.ofString? (s : String) : Option Department :=
  if s = "Artificial Intelligence" then some .artificialIntelligence
  else if s = "AI/ML" then some .aiML
  else if s = "Machine Learning" then some .machineLearning
  else if s = "Data Science" then some .dataScience
  else Option.none

/-- Python's `str.strip()`: drop leading and trailing whitespace. -/
def pyStrip (s : String) : String :=
  ⟨((s.data.dropWhile Char.isWhitespace).reverse.dropWhile Char.isWhitespace).reverse⟩

/-- Python's `s[:n]` on a string for `n ≥ 0`: the first `n` characters. -/
def pyTake (s : String) (n : Nat) : String := ⟨s.data.take n⟩

/-- Python's `str.split()` with no separator, over the character list with
the current word accumulated in reverse: whitespace runs separate maximal
non-empty words, and leading/trailing whitespace produces no word. -/
def pyWordsGo : List Char → List Char → List (List Char)
  | [], acc => if acc.isEmpty then [] else [acc.reverse]
  | c :: cs, acc =>
    if c.isWhitespace then
      if acc.isEmpty then pyWordsGo cs [] else acc.reverse :: pyWordsGo cs []
    else pyWordsGo cs (c :: acc)

/-- Python's `" ".join(ws)` over character-list words. -/
def joinSpace : List (List Char) → List Char
  | [] => []
  | [w] => w
  | w :: ws => w ++ ' ' :: joinSpace ws

/-- One step of Python's `str.title()` over the character list, carrying
whether the previous character was cased: a letter after a letter is
lowercased, a letter after a non-letter is uppercased, and any other
character passes through. -/
def pyTitleGo : Bool → List Char → List Char
  | _, [] => []
  | prevCased, c :: cs =>
    if c.isAlpha then
      (if prevCased then c.toLower else c.toUpper) :: pyTitleGo true cs
    else
      c :: pyTitleGo false cs

/-- Python's `str.title()` (ASCII letters). -/
def pyTitle (s : String) : String := ⟨pyTitleGo false s.data⟩

/-- `Employee.normalize_name`: `" ".join(str(v).strip().split())` followed
by `.title()` — collapse whitespace runs to single spaces, trim, and
title-case. -/
def normalize_name (v : String) : String :=
  pyTitle ⟨joinSpace (pyWordsGo (pyStrip v).data [])⟩

/-- A calendar date as pydantic's `date` field stores it. -/
structure PyDate where
  year : Nat
  month : Nat
  day : Nat
  deriving DecidableEq, Repr

/-- Gregorian leap-year rule. -/
def isLeapYear (y : Nat) : Bool := y % 4 = 0 ∧ (y % 100 ≠ 0 ∨ y % 400 = 0)

/-- Days in a month (with the leap-year rule for February). -/
def daysInMonth (y m : Nat) : Nat :=
  if m = 2 then (if isLeapYear y then 29 else 28)
  else if m = 4 ∨ m = 6 ∨ m = 9 ∨ m = 11 then 30
  else 31

/-- A decimal digit's value, or `none`. -/
def digitVal? (c : Char) : Option Nat :=
  if c.isDigit then some (c.toNat - 48) else Option.none

/-- Strict ISO `YYYY-MM-DD` calendar-date parsing as pydantic performs it
for a `date` field given a JSON string: exactly ten characters, zero-padded
components, month in 1..12 and day within the month. -/
def parseISODate (s : String) : Option PyDate :=
  match s.data with
  | [c1, c2, c3, c4, '-', c5, c6, '-', c7, c8] =>
    match digitVal? c1, digitVal? c2, digitVal? c3, digitVal? c4,
          digitVal? c5, digitVal? c6, digitVal? c7, digitVal? c8 with
    | some y1, some y2, some y3, some y4, some m1, some m2, some d1, some d2 =>
      let y := ((y1 * 10 + y2) * 10 + y3) * 10 + y4
      let m := m1 * 10 + m2
      let d := d1 * 10 + d2
      if 1 ≤ m ∧ m ≤ 12 ∧ 1 ≤ d ∧ d ≤ daysInMonth y m then some ⟨y, m, d⟩
      else Option.none
    | _, _, _, _, _, _, _, _ => Option.none
  | _ => Option.none

/-- A validated `Employee` (pydantic model instance).  Finite floats are
carried as rationals. -/
structure Employee where
  user_id : Int
  name : String
  age : Option Int
  email : Option String
  salary : Option ℚ
  join_date : Option PyDate
  department : Department
  performance_score : Option ℚ
  location : Option String
  job_title : Option String
  deriving DecidableEq, Repr

/-- A validated `RejectedRecord`. -/
structure RejectedRecord where
  raw_record : String
  reasons : List String
  deriving DecidableEq, Repr

/-- A validated `ExtractedData` document. -/
structure ExtractedData where
  employees : List Employee
  rejected : List RejectedRecord
  deriving DecidableEq, Repr

/-- An `Employee` candidate: the parsed JSON object's fields before the
constraint checks. -/
structure EmployeeCand where
  user_id : Option Int
  name : Option String
  age : Option Int
  email : Option String
  salary : Option ℚ
  join_date : Option String
  department : Option String
  performance_score : Option ℚ
  location : Option String
  job_title : Option String
  deriving DecidableEq, Repr

/-- A `RejectedRecord` candidate. -/
structure RejectedCand where
  raw_record : Option String
  reasons : Option (List String)
  deriving DecidableEq, Repr

/-- An `ExtractedData` candidate: the whole parsed document (an absent key
is the empty list, matching the `default_factory=list` defaults). -/
structure DocCand where
  employees : List EmployeeCand
  rejected : List RejectedCand
  deriving DecidableEq, Repr

/-- `user_id: int` — required, never coerced from absence. -/
def vUserId : Option Int → Except (List String) Int
  | some n => .ok n
  | Option.none => .error ["user_id: Field required"]

/-- `name: str = Field(min_length=1)` with the `normalize_name`
after-validator: the length constraint applies to the raw value, and the
validator's normalized return value is not re-checked. -/
def vName : Option String → Except (List String) String
  | Option.none => .error ["name: Field required"]
  | some s =>
    if 1 ≤ s.length then .ok (normalize_name s)
    else .error ["name: String should have at least 1 character"]

/-- `age: Optional[int] = Field(default=None, ge=16, le=80)`. -/
def vAge : Option Int → Except (List String) (Option Int)
  | Option.none => .ok Option.none
  | some a =>
    if 16 ≤ a ∧ a ≤ 80 then .ok (some a)
    else if a < 16 then .error ["age: Input should be greater than or equal to 16"]
    else .error ["age: Input should be less than or equal to 80"]

/-- `salary: Optional[float] = Field(default=None, ge=0)`. -/
def vSalary : Option ℚ → Except (List String) (Option ℚ)
  | Option.none => .ok Option.none
  | some q =>
    if 0 ≤ q then .ok (some q)
    else .error ["salary: Input should be greater than or equal to 0"]

/-- `join_date: Optional[date] = None`. -/
def vJoinDate : Option String → Except (List String) (Option PyDate)
  | Option.none => .ok Option.none
  | some s =>
    match parseISODate s with
    | some d => .ok (some d)
    | Option.none => .error ["join_date: Input should be a valid date"]

/-- `department: Department` — required, case-sensitive membership in the
closed literal set. -/
def vDepartment : Option String → Except (List String) Department
  | Option.none => .error ["department: Field required"]
  | some s =>
    match Department.ofString? s with
    | some d => .ok d
    | Option.none => .error ["department: Input should be a valid Department literal"]

/-- `performance_score: Optional[float] = Field(default=None, ge=0, le=10)`. -/
def vScore : Option ℚ → Except (List String) (Option ℚ)
  | Option.none => .ok Option.none
  | some q =>
    if 0 ≤ q ∧ q ≤ 10 then .ok (some q)
    else .error ["performance_score: Input should be in the range 0..10"]

/-- `raw_record: str = Field(min_length=1)`. -/
def vRawRecord : Option String → Except (List String) String
  | Option.none => .error ["raw_record: Field required"]
  | some s =>
    if 1 ≤ s.length then .ok s
    else .error ["raw_record: String should have at least 1 character"]

/-- `reasons: List[str] = Field(min_length=1)` — the length constraint is
on the list. -/
def vReasons : Option (List String) → Except (List String) (List String)
  | Option.none => .error ["reasons: Field required"]
  | some l =>
    if 1 ≤ l.length then .ok l
    else .error ["reasons: List should have at least 1 item"]

/-- Pydantic-style error accumulation across two independent validations:
both error lists are kept, in field order. -/
def accum2 : Except (List String) α → Except (List String) β → Except (List String) (α × β)
  | .ok a, .ok b => .ok (a, b)
  | .ok _, .error f => .error f
  | .error e, .ok _ => .error e
  | .error e, .error f => .error (e ++ f)

/-- Validation of one `Employee` candidate: every field constraint is
checked and all violations are reported together. -/
def validateEmployee (c : EmployeeCand) : Except (List String) Employee :=
  match accum2 (vUserId c.user_id) (accum2 (vName c.name) (accum2 (vAge c.age)
      (accum2 (vSalary c.salary) (accum2 (vJoinDate c.join_date)
      (accum2 (vDepartment c.department) (vScore c.performance_score)))))) with
  | .ok (u, n, a, s, j, d, p) =>
    .ok ⟨u, n, a, c.email, s, j, d, p, c.location, c.job_title⟩
  | .error es => .error es

/-- Validation of one `RejectedRecord` candidate. -/
def validateRejected (c : RejectedCand) : Except (List String) RejectedRecord :=
  match accum2 (vRawRecord c.raw_record) (vReasons c.reasons) with
  | .ok (r, rs) => .ok ⟨r, rs⟩
  | .error es => .error es

/-- Rebuild a cons cell from an accumulated head/tail pair. -/
def consVal : Except (List String) (α × List α) → Except (List String) (List α)
  | .ok (a, as) => .ok (a :: as)
  | .error es => .error es

/-- Error-accumulating sequencing of a list of validations: `ok` exactly
when every element is `ok`, keeping all values in order; otherwise every
element's errors, in order. -/
def collectList : List (Except (List String) α) → Except (List String) (List α)
  | [] => .ok []
  | x :: xs => consVal (accum2 x (collectList xs))

/-- Whole-document validation (`ExtractedData.model_validate` on the parsed
document): all employee candidates and all rejected candidates must pass,
and every violation anywhere fails the entire document. -/
def validateDoc (d : DocCand) : Except (List String) ExtractedData :=
  match collectList (d.employees.map validateEmployee),
        collectList (d.rejected.map validateRejected) with
  | .ok es, .ok rs => .ok ⟨es, rs⟩
  | .ok _, .error f => .error f
  | .error e, .ok _ => .error e
  | .error e, .error f => .error (e ++ f)

/-- `model_dump` of an optional field: `null` or the dumped value. -/
def optVal (f : α → PyVal) : Option α → PyVal
  | Option.none => .none
  | some a => f a

/-- `Employee.model_dump()`. -/
def Employee.dump (e : Employee) : PyVal :=
  .dict [("user_id", .int e.user_id), ("name", .str e.name),
    ("age", optVal (fun n => .int n) e.age), ("email", optVal .str e.email),
    ("salary", optVal (fun q => .float (.finite q)) e.salary),
    ("join_date", optVal (fun d => .date d.year d.month d.day) e.join_date),
    ("department", .str e.department.canonical),
    ("performance_score", optVal (fun q => .float (.finite q)) e.performance_score),
    ("location", optVal .str e.location), ("job_title", optVal .str e.job_title)]

/-- `RejectedRecord.model_dump()`. -/
def RejectedRecord.dump (r : RejectedRecord) : PyVal :=
  .dict [("raw_record", .str r.raw_record), ("reasons", .list (r.reasons.map .str))]

/-- `ExtractedData.model_dump()`. -/
def ExtractedData.dump (d : ExtractedData) : PyVal :=
  .dict [("employees", .list (d.employees.map Employee.dump)),
    ("rejected", .list (d.rejected.map RejectedRecord.dump))]

/-! ## Retry controller (`src/agent/graph.py`)

The LangGraph state machine is embedded as explicit state passing.  The
parse-and-validate step on raw text (`ExtractedData.model_validate_json`)
is a parameter `V : String → Except String ExtractedData` of every run
function: its success value is the validated document and its error value
is the stringified `ValidationError`.  The generator calls are parameters
returning `Except String String`, whose error case models a transport
exception raised by the underlying client call. -/

/-- One audit-log entry, as appended by the step functions. -/
inductive LogEntry where
  | extract (attempt : Int) (output : String)
  | validatePass (attempt : Int)
  | validateFail (attempt : Int) (error : String)
  | correct (attempt : Int) (output : String)
  deriving DecidableEq, Repr

/-- The `AgentState` TypedDict. -/
structure AgentState where
  raw_text : String
  attempt : Int
  max_attempts : Int
  last_json_text : String
  validation_error : String
  result : Option PyVal
  log : List LogEntry
  deriving Repr

/-- Outcome of a run: the terminal state, or a transport exception
propagating out of a generator call together with the state (and hence the
audit log) at the moment the call was made. -/
inductive RunOutcome where
  | ok (final : AgentState)
  | transportFailure (err : String) (partialState : AgentState)
  deriving Repr

/-- `_llm_extract`: call the generator on the raw text, strip the output,
store it as `last_json_text` and append an `extract` log entry with the
output truncated to 2000 characters.  A transport error aborts the step
before anything is appended. -/
def _llm_extract (genE : String → Except String String) (s : AgentState) : RunOutcome :=
  match genE s.raw_text with
  | .error e => .transportFailure e s
  | .ok t =>
    let out := pyStrip t
    .ok { s with last_json_text := out,
                 log := s.log ++ [.extract s.attempt (pyTake out 2000)] }

/-- `_validate`: validate `last_json_text`; on success store the
JSON-safe dump as `result`, clear `validation_error` and append a passing
entry; on failure clear `result`, store the full error text and append a
failing entry with the error truncated to 2000 characters. -/
def _validate (V : String → Except String ExtractedData) (s : AgentState) : AgentState :=
  match V s.last_json_text with
  | .ok d =>
    { s with result := some (_json_safe d.dump), validation_error := "",
             log := s.log ++ [.validatePass s.attempt] }
  | .error e =>
    { s with result := Option.none, validation_error := e,
             log := s.log ++ [.validateFail s.attempt (pyTake e 2000)] }

/-- `_llm_correct`: call the generator on the previous output and the
validation error, strip, store, and append a `correct` log entry (at the
still-unincremented attempt number). -/
def _llm_correct (genC : String → String → Except String String) (s : AgentState) : RunOutcome :=
  match genC s.last_json_text s.validation_error with
  | .error e => .transportFailure e s
  | .ok t =>
    let out := pyStrip t
    .ok { s with last_json_text := out,
                 log := s.log ++ [.correct s.attempt (pyTake out 2000)] }

/-- The `inc_attempt` node: increment the attempt counter. -/
def inc_attempt (s : AgentState) : AgentState := { s with attempt := s.attempt + 1 }

/-- `_should_retry`: finalize when a result is present or the attempt
counter has reached the budget, else retry. -/
def _should_retry (s : AgentState) : String :=
  if s.result.isSome then "finalize"
  else if s.attempt ≥ s.max_attempts then "finalize"
  else "retry"

/-- The graph's cycle after a `validate` step: while `_should_retry`
says `"retry"`, run `correct`, `inc_attempt`, `validate`, and loop.  The
`fuel` argument is only a structural bound on the number of correction
cycles: a cycle runs only when `attempt < max_attempts` and each cycle
increments `attempt`, so from an entry state with fuel
`(max_attempts - attempt).toNat` the fuel-exhausted base case is reached
only when `attempt ≥ max_attempts`, where it returns the same finalized
state the `"finalize"` branch would. -/
def runLoop (V : String → Except String ExtractedData)
    (genC : String → String → Except String String) : Nat → AgentState → RunOutcome
  | 0, s => .ok s
  | fuel + 1, s =>
    if _should_retry s = "retry" then
      match _llm_correct genC s with
      | .transportFailure e ps => .transportFailure e ps
      | .ok s1 => runLoop V genC fuel (_validate V (inc_attempt s1))
    else .ok s

/-- `run_agent` including transport exceptions: initialize the state
(attempt 1, empty log), run `extract`, `validate`, then the retry cycle. -/
def run_agentE (V : String → Except String ExtractedData)
    (genE : String → Except String String) (genC : String → String → Except String String)
    (raw_text : String) (max_attempts : Int) : RunOutcome :=
  let init : AgentState :=
    { raw_text := raw_text, attempt := 1, max_attempts := max_attempts,
      last_json_text := "", validation_error := "", result := Option.none, log := [] }
  match _llm_extract genE init with
  | .transportFailure e ps => .transportFailure e ps
  | .ok s1 => runLoop V genC (max_attempts - 1).toNat (_validate V s1)

/-- `run_agent` for generators whose calls complete (the function's normal
return value: the terminal state). -/
def run_agent (V : String → Except String ExtractedData)
    (genE : String → String) (genC : String → String → String)
    (raw_text : String) (max_attempts : Int) : AgentState :=
  match run_agentE V (fun r => .ok (genE r)) (fun p e => .ok (genC p e)) raw_text max_attempts with
  | .ok s => s
  | .transportFailure _ ps => ps

/-- Is a log entry an `extract` entry? -/
def isExtractEntry : LogEntry → Bool
  | .extract _ _ => true
  | _ => false

/-- Is a log entry a `validate` entry (passing or failing)? -/
def isValidateEntry : LogEntry → Bool
  | .validatePass _ => true
  | .validateFail _ _ => true
  | _ => false

/-- Is a log entry a failed `validate` entry? -/
def isValidateFailEntry : LogEntry → Bool
  | .validateFail _ _ => true
  | _ => false

/-- Is a log entry a `correct` entry? -/
def isCorrectEntry : LogEntry → Bool
  | .correct _ _ => true
  | _ => false

/-- The attempt numbers of the `validate` entries, in log order. -/
def validateAttempts (log : List LogEntry) : List Int :=
  log.filterMap (fun e =>
    match e with
    | .validatePass a => some a
    | .validateFail a _ => some a
    | _ => Option.none)

/-- The attempt numbers of the `correct` entries, in log order. -/
def correctAttempts (log : List LogEntry) : List Int :=
  log.filterMap (fun e =>
    match e with
    | .correct a _ => some a
    | _ => Option.none)

/-! ## Offline harness (`src/agent/offline_runner.py`) -/

/-- Python's `xs[:n]` on a list, including the negative-index case. -/
def pySliceTo (xs : List α) (n : Int) : List α :=
  if 0 ≤ n then xs.take n.toNat
  else xs.take (xs.length - (-n).toNat)

/-- The dictionary `run_offline_agent` returns. -/
structure OfflineOutput where
  result : Option PyVal
  log : List LogEntry
  last_json_text : String
  deriving Repr

/-- The `for out in candidate_json_outputs[:max_attempts]` loop: log an
`extract` entry for the candidate, validate it, and either return its dump
immediately on a pass or log the failure and move to the next candidate at
the next attempt number. -/
def offlineLoop (V : String → Except String ExtractedData) :
    List String → Int → List LogEntry → String → OfflineOutput
  | [], _, log, last => ⟨Option.none, log, last⟩
  | out :: rest, attempt, log, _ =>
    let log1 := log ++ [.extract attempt out]
    match V out with
    | .ok d => ⟨some d.dump, log1 ++ [.validatePass attempt], out⟩
    | .error e => offlineLoop V rest (attempt + 1) (log1 ++ [.validateFail attempt e]) out

/-- `run_offline_agent`: replay the candidate outputs (bounded by
`max_attempts`) through validation, starting at attempt 1 with an empty
log and `last = ""`. -/
def run_offline_agent (V : String → Except String ExtractedData)
    (_raw_text : String) (candidate_json_outputs : List String)
    (max_attempts : Int) : OfflineOutput :=
  offlineLoop V (pySliceTo candidate_json_outputs max_attempts) 1 [] ""

/-! ## Claims about the Safe-JSON normalizer -/

/-- C8: the Safe-JSON normalizer is idempotent: for every nested structure
`x`, `_json_safe (_json_safe x) = _json_safe x`. -/
theorem C8_json_safe_idempotent : ∀ v : PyVal, _json_safe (_json_safe v) = _json_safe v :=
  _json_safe_idem_aux

/-- C9: `_json_safe` replaces each non-finite float (NaN, +inf, -inf) with
null, recurses into nested dicts (values only) and lists, and returns every
other value — `None`, finite floats, bools, ints, strings, dates —
unchanged. -/
theorem C9_json_safe_characterization :
    _json_safe .none = .none
    ∧ _json_safe (.float .nan) = .none
    ∧ _json_safe (.float .inf) = .none
    ∧ _json_safe (.float .neginf) = .none
    ∧ (∀ q, _json_safe (.float (.finite q)) = .float (.finite q))
    ∧ (∀ b, _json_safe (.bool b) = .bool b)
    ∧ (∀ n, _json_safe (.int n) = .int n)
    ∧ (∀ s, _json_safe (.str s) = .str s)
    ∧ (∀ y m d, _json_safe (.date y m d) = .date y m d)
    ∧ (∀ es, _json_safe (.dict es) = .dict (es.map (fun kv => (kv.1, _json_safe kv.2))))
    ∧ (∀ vs, _json_safe (.list vs) = .list (vs.map _json_safe)) := by
  refine ⟨rfl, rfl, rfl, rfl, fun q => rfl, fun b => rfl, fun n => rfl, fun s => rfl,
    fun y m d => rfl, fun es => ?_, fun vs => ?_⟩
  · rw [_json_safe, _json_safeEntries_eq_map]
  · rw [_json_safe, _json_safeList_eq_map]

/-! ## Claims about the record schema -/

/-- An otherwise-valid employee candidate with a given raw name field. -/
def nameCand (n : Option String) : EmployeeCand :=
  { user_id := some 1, name := n, age := Option.none, email := Option.none,
    salary := Option.none, join_date := Option.none, department := some "Data Science",
    performance_score := Option.none, location := Option.none, job_title := Option.none }

/-- C6 counterexample: a whitespace-only name is NOT a validation failure.
The `min_length=1` check runs on the raw value `" "` (length 1) before the
`normalize_name` after-validator, whose normalized return value is not
re-checked, so the candidate is accepted with the empty name. -/
theorem C6_whitespace_name_accepted :
    validateEmployee (nameCand (some " ")) =
      .ok { user_id := 1, name := "", age := Option.none, email := Option.none,
            salary := Option.none, join_date := Option.none,
            department := .dataScience, performance_score := Option.none,
            location := Option.none, job_title := Option.none } := by rfl

/-- C6 (amended): a present name is normalized by collapsing internal
whitespace runs to single spaces, trimming and title-casing (so
`"  michael   chen "` yields `"Michael Chen"`), and a name given as the
empty string fails the minimum-length constraint; but a whitespace-only
name passes that constraint — which is checked before normalization — and
is accepted with its name normalized to the empty string. -/
theorem C6_name_normalization :
    validateEmployee (nameCand (some "  michael   chen ")) =
      .ok { user_id := 1, name := "Michael Chen", age := Option.none, email := Option.none,
            salary := Option.none, join_date := Option.none,
            department := .dataScience, performance_score := Option.none,
            location := Option.none, job_title := Option.none }
    ∧ validateEmployee (nameCand (some "")) =
      .error ["name: String should have at least 1 character"]
    ∧ validateEmployee (nameCand Option.none) = .error ["name: Field required"]
    ∧ validateEmployee (nameCand (some " ")) =
      .ok { user_id := 1, name := "", age := Option.none, email := Option.none,
            salary := Option.none, join_date := Option.none,
            department := .dataScience, performance_score := Option.none,
            location := Option.none, job_title := Option.none } :=
  ⟨by rfl, by rfl, by rfl, by rfl⟩

/-- An otherwise-valid employee candidate with a given raw age field. -/
def ageCand (a : Option Int) : EmployeeCand :=
  { user_id := some 1, name := some "Michael Chen", age := a, email := Option.none,
    salary := Option.none, join_date := Option.none, department := some "Data Science",
    performance_score := Option.none, location := Option.none, job_title := Option.none }

/-- Validation of an `ageCand` reduces to the age check: every other field
of the candidate validates. -/
theorem validateEmployee_ageCand (x : Option Int) :
    validateEmployee (ageCand x) =
      match vAge x with
      | .ok a => .ok { user_id := 1, name := "Michael Chen", age := a, email := Option.none,
                       salary := Option.none, join_date := Option.none,
                       department := .dataScience, performance_score := Option.none,
                       location := Option.none, job_title := Option.none }
      | .error es => .error es := by
  cases hx : vAge x with
  | ok a =>
    simp only [validateEmployee, ageCand]
    rw [hx]
    rfl
  | error es =>
    simp only [validateEmployee, ageCand]
    rw [hx]
    rfl

/-- C7: on an otherwise-valid record candidate, validation accepts exactly
the ages in `[16, 80]`: 16 and 80 are accepted, 15 and 81 are rejected,
and a null/absent age is accepted. -/
theorem C7_age_bounds :
    (∀ a : Int, (∃ emp, validateEmployee (ageCand (some a)) = .ok emp) ↔ (16 ≤ a ∧ a ≤ 80))
    ∧ (∃ emp, validateEmployee (ageCand (some 16)) = .ok emp)
    ∧ (∃ emp, validateEmployee (ageCand (some 80)) = .ok emp)
    ∧ (∀ emp, validateEmployee (ageCand (some 15)) ≠ .ok emp)
    ∧ (∀ emp, validateEmployee (ageCand (some 81)) ≠ .ok emp)
    ∧ (∃ emp, validateEmployee (ageCand Option.none) = .ok emp) := by
  have hiff : ∀ a : Int,
      (∃ emp, validateEmployee (ageCand (some a)) = .ok emp) ↔ (16 ≤ a ∧ a ≤ 80) := by
    intro a
    constructor
    · rintro ⟨emp, hemp⟩
      rw [validateEmployee_ageCand] at hemp
      by_contra hrange
      have hx : vAge (some a) = .error
          (if a < 16 then ["age: Input should be greater than or equal to 16"]
           else ["age: Input should be less than or equal to 80"]) := by
        simp only [vAge]
        rw [if_neg hrange]
        split <;> rfl
      rw [hx] at hemp
      simp at hemp
    · rintro ⟨h16, h80⟩
      have hx : vAge (some a) = .ok (some a) := by
        simp only [vAge]; rw [if_pos ⟨h16, h80⟩]
      exact ⟨_, by rw [validateEmployee_ageCand, hx]⟩
  refine ⟨hiff, (hiff 16).2 (by norm_num), (hiff 80).2 (by norm_num),
    fun emp h => ?_, fun emp h => ?_, ⟨_, by rw [validateEmployee_ageCand]; rfl⟩⟩
  · have := (hiff 15).1 ⟨emp, h⟩; omega
  · have := (hiff 81).1 ⟨emp, h⟩; omega


/-- Non-emptiness of error reports: whenever this validation result is an
error, its violation list is non-empty. -/
def NEerr (x : Except (List String) α) : Prop := ∀ es, x = .error es → es ≠ []

theorem accum2_NEerr {x : Except (List String) α} {y : Except (List String) β}
    (hx : NEerr x) (hy : NEerr y) : NEerr (accum2 x y) := by
  intro es h
  cases x with
  | ok a =>
    cases y with
    | ok b => simp [accum2] at h
    | error f => simp only [accum2] at h; injection h with h; exact h ▸ hy f rfl
  | error e =>
    cases y with
    | ok b => simp only [accum2] at h; injection h with h; exact h ▸ hx e rfl
    | error f =>
      simp only [accum2] at h; injection h with h
      intro hnil
      rw [← h] at hnil
      exact hx e rfl (List.append_eq_nil.mp hnil).1

theorem vUserId_NEerr (x : Option Int) : NEerr (vUserId x) := by
  intro es h; cases x <;> simp only [vUserId] at h
  · injection h with h; subst h; simp
  · cases h

theorem vName_NEerr (x : Option String) : NEerr (vName x) := by
  intro es h; cases x <;> simp only [vName] at h
  · injection h with h; subst h; simp
  · split at h
    · cases h
    · injection h with h; subst h; simp

theorem vAge_NEerr (x : Option Int) : NEerr (vAge x) := by
  intro es h; cases x <;> simp only [vAge] at h
  · cases h
  · split at h
    · cases h
    · split at h <;> (injection h with h; subst h; simp)

theorem vSalary_NEerr (x : Option ℚ) : NEerr (vSalary x) := by
  intro es h; cases x <;> simp only [vSalary] at h
  · cases h
  · split at h
    · cases h
    · injection h with h; subst h; simp

theorem vJoinDate_NEerr (x : Option String) : NEerr (vJoinDate x) := by
  intro es h; cases x <;> simp only [vJoinDate] at h
  · cases h
  · split at h
    · cases h
    · injection h with h; subst h; simp

theorem vDepartment_NEerr (x : Option String) : NEerr (vDepartment x) := by
  intro es h; cases x <;> simp only [vDepartment] at h
  · injection h with h; subst h; simp
  · split at h
    · cases h
    · injection h with h; subst h; simp

theorem vScore_NEerr (x : Option ℚ) : NEerr (vScore x) := by
  intro es h; cases x <;> simp only [vScore] at h
  · cases h
  · split at h
    · cases h
    · injection h with h; subst h; simp

theorem vRawRecord_NEerr (x : Option String) : NEerr (vRawRecord x) := by
  intro es h; cases x <;> simp only [vRawRecord] at h
  · injection h with h; subst h; simp
  · split at h
    · cases h
    · injection h with h; subst h; simp

theorem vReasons_NEerr (x : Option (List String)) : NEerr (vReasons x) := by
  intro es h; cases x <;> simp only [vReasons] at h
  · injection h with h; subst h; simp
  · split at h
    · cases h
    · injection h with h; subst h; simp

theorem validateEmployee_NEerr (c : EmployeeCand) : NEerr (validateEmployee c) := by
  intro es h
  simp only [validateEmployee] at h
  cases hacc : accum2 (vUserId c.user_id) (accum2 (vName c.name) (accum2 (vAge c.age)
      (accum2 (vSalary c.salary) (accum2 (vJoinDate c.join_date)
      (accum2 (vDepartment c.department) (vScore c.performance_score)))))) with
  | ok v =>
    obtain ⟨u, n, a, s, j, d, p⟩ := v
    rw [hacc] at h
    cases h
  | error e =>
    rw [hacc] at h
    injection h with h
    exact h ▸ accum2_NEerr (vUserId_NEerr _) (accum2_NEerr (vName_NEerr _)
      (accum2_NEerr (vAge_NEerr _) (accum2_NEerr (vSalary_NEerr _)
      (accum2_NEerr (vJoinDate_NEerr _) (accum2_NEerr (vDepartment_NEerr _)
      (vScore_NEerr _)))))) e hacc

theorem validateRejected_NEerr (c : RejectedCand) : NEerr (validateRejected c) := by
  intro es h
  simp only [validateRejected] at h
  cases hacc : accum2 (vRawRecord c.raw_record) (vReasons c.reasons) with
  | ok v =>
    obtain ⟨r, rs⟩ := v
    rw [hacc] at h
    cases h
  | error e =>
    rw [hacc] at h
    injection h with h
    exact h ▸ accum2_NEerr (vRawRecord_NEerr _) (vReasons_NEerr _) e hacc

/-- A passing `collectList` has one value per input, and every input
passed. -/
theorem collectList_ok {xs : List (Except (List String) α)} {ys : List α}
    (h : collectList xs = .ok ys) : ys.length = xs.length ∧ ∀ x ∈ xs, ∃ a, x = .ok a := by
  induction xs generalizing ys with
  | nil =>
    simp only [collectList] at h
    injection h with h
    subst h
    simp
  | cons x xs ih =>
    simp only [collectList] at h
    cases hx : x with
    | ok a =>
      cases hxs : collectList xs with
      | ok as =>
        rw [hx, hxs] at h
        simp only [accum2, consVal] at h
        injection h with h
        subst h
        obtain ⟨hlen, hall⟩ := ih hxs
        refine ⟨by simp [hlen], ?_⟩
        intro z hz
        rcases hz with _ | hz
        · exact ⟨a, rfl⟩
        · exact hall z (by assumption)
      | error f => rw [hx, hxs] at h; simp [accum2, consVal] at h
    | error e =>
      cases hxs : collectList xs with
      | ok as => rw [hx, hxs] at h; simp [accum2, consVal] at h
      | error f => rw [hx, hxs] at h; simp [accum2, consVal] at h

/-- One failing element fails the whole `collectList`. -/
theorem collectList_error_of_mem {xs : List (Except (List String) α)}
    {x : Except (List String) α} {es : List String}
    (hx : x ∈ xs) (he : x = .error es) : ∃ errs, collectList xs = .error errs := by
  induction xs with
  | nil => cases hx
  | cons y ys ih =>
    rcases hx with _ | hx
    · simp only [collectList, he]
      cases hys : collectList ys with
      | ok as => exact ⟨es, rfl⟩
      | error f => exact ⟨es ++ f, rfl⟩
    · obtain ⟨errs, herrs⟩ := ih (by assumption)
      simp only [collectList]
      rw [herrs]
      cases y with
      | ok a => exact ⟨errs, rfl⟩
      | error e => exact ⟨e ++ errs, rfl⟩

theorem collectList_NEerr {xs : List (Except (List String) α)}
    (h : ∀ x ∈ xs, NEerr x) : NEerr (collectList xs) := by
  induction xs with
  | nil => intro es hes; cases hes
  | cons x xs ih =>
    intro es hes
    simp only [collectList] at hes
    have hx : NEerr x := h x (by simp)
    have hxs : NEerr (collectList xs) := ih (fun y hy => h y (by simp [hy]))
    cases hcx : x with
    | ok a =>
      cases hcs : collectList xs with
      | ok as => rw [hcx, hcs] at hes; simp [accum2, consVal] at hes
      | error f =>
        rw [hcx, hcs] at hes
        simp only [accum2, consVal] at hes
        injection hes with hes
        exact hes ▸ hxs f hcs
    | error e =>
      cases hcs : collectList xs with
      | ok as =>
        rw [hcx, hcs] at hes
        simp only [accum2, consVal] at hes
        injection hes with hes
        exact hes ▸ hx e hcx
      | error f =>
        rw [hcx, hcs] at hes
        simp only [accum2, consVal] at hes
        injection hes with hes
        intro hnil
        rw [← hes] at hnil
        exact hx e hcx (List.append_eq_nil.mp hnil).1

/-- C3: whole-document validation is all-or-nothing.  If any single record
candidate or rejected-entry candidate violates a field constraint, the
whole document validates to a non-empty structured error and no
`ExtractedData` is produced; and whenever the document validates, the
result contains every candidate (same counts, every candidate individually
valid) — never a partially accepted subset. -/
theorem C3_whole_document_validation :
    (∀ doc : DocCand,
      ((∃ c ∈ doc.employees, ∃ es, validateEmployee c = .error es) ∨
       (∃ r ∈ doc.rejected, ∃ es, validateRejected r = .error es)) →
      ∃ errs, validateDoc doc = .error errs ∧ errs ≠ [])
    ∧ (∀ (doc : DocCand) (d : ExtractedData), validateDoc doc = .ok d →
        d.employees.length = doc.employees.length ∧
        d.rejected.length = doc.rejected.length ∧
        (∀ c ∈ doc.employees, ∃ emp, validateEmployee c = .ok emp) ∧
        (∀ r ∈ doc.rejected, ∃ rr, validateRejected r = .ok rr)) := by
  constructor
  · intro doc hbad
    have hNEe : NEerr (collectList (doc.employees.map validateEmployee)) :=
      collectList_NEerr (by
        intro x hx
        obtain ⟨c, _, rfl⟩ := List.mem_map.mp hx
        exact validateEmployee_NEerr c)
    have hNEr : NEerr (collectList (doc.rejected.map validateRejected)) :=
      collectList_NEerr (by
        intro x hx
        obtain ⟨c, _, rfl⟩ := List.mem_map.mp hx
        exact validateRejected_NEerr c)
    rcases hbad with ⟨c, hc, es, hes⟩ | ⟨r, hr, es, hes⟩
    · obtain ⟨errs, herrs⟩ :=
        collectList_error_of_mem (List.mem_map_of_mem validateEmployee hc) hes
      have hne : errs ≠ [] := hNEe errs herrs
      cases hrej : collectList (doc.rejected.map validateRejected) with
      | ok rs => exact ⟨errs, by simp [validateDoc, herrs, hrej], hne⟩
      | error f =>
        refine ⟨errs ++ f, by simp [validateDoc, herrs, hrej], ?_⟩
        simp [hne]
    · obtain ⟨errs, herrs⟩ :=
        collectList_error_of_mem (List.mem_map_of_mem validateRejected hr) hes
      have hne : errs ≠ [] := hNEr errs herrs
      cases hemp : collectList (doc.employees.map validateEmployee) with
      | ok es2 => exact ⟨errs, by simp [validateDoc, herrs, hemp], hne⟩
      | error e =>
        refine ⟨e ++ errs, by simp [validateDoc, herrs, hemp], ?_⟩
        simp [hne]
  · intro doc d h
    simp only [validateDoc] at h
    cases hemp : collectList (doc.employees.map validateEmployee) with
    | error e =>
      rw [hemp] at h
      cases hrej : collectList (doc.rejected.map validateRejected) with
      | ok rs => rw [hrej] at h; cases h
      | error f => rw [hrej] at h; cases h
    | ok es =>
      rw [hemp] at h
      cases hrej : collectList (doc.rejected.map validateRejected) with
      | error f => rw [hrej] at h; cases h
      | ok rs =>
        rw [hrej] at h
        injection h with h
        subst h
        obtain ⟨hlen1, hall1⟩ := collectList_ok hemp
        obtain ⟨hlen2, hall2⟩ := collectList_ok hrej
        refine ⟨by simpa using hlen1, by simpa using hlen2, ?_, ?_⟩
        · intro c hc
          obtain ⟨a, ha⟩ := hall1 _ (List.mem_map_of_mem validateEmployee hc)
          exact ⟨a, ha⟩
        · intro r hr
          obtain ⟨a, ha⟩ := hall2 _ (List.mem_map_of_mem validateRejected hr)
          exact ⟨a, ha⟩

/-! ## Claims about the retry controller -/

/-- A parse-and-validate function that rejects every raw text (used to
instantiate hypotheses at concrete inputs). -/
def failV : String → Except String ExtractedData := fun _ => .error "invalid"

/-- C1: with `max_attempts = 3` and every generator call (the initial
extraction and every correction) returning text that fails validation, the
terminal state has a null result, exactly 3 validate entries all marked
failed, exactly 2 correct entries, and the attempt counter — starting at 1
— was incremented exactly once per correction cycle (validate entries at
attempts 1, 2, 3; correct entries at attempts 1, 2; final counter 3). -/
theorem C1_budget_exhaustion :
    ∀ (V : String → Except String ExtractedData) (genE : String → String)
      (genC : String → String → String) (raw : String),
      (∀ r, ∃ e, V (pyStrip (genE r)) = .error e) →
      (∀ p q, ∃ e, V (pyStrip (genC p q)) = .error e) →
      (run_agent V genE genC raw 3).result = Option.none ∧
      (run_agent V genE genC raw 3).log.countP isValidateEntry = 3 ∧
      (run_agent V genE genC raw 3).log.countP isValidateFailEntry = 3 ∧
      (run_agent V genE genC raw 3).log.countP isCorrectEntry = 2 ∧
      validateAttempts (run_agent V genE genC raw 3).log = [1, 2, 3] ∧
      correctAttempts (run_agent V genE genC raw 3).log = [1, 2] ∧
      (run_agent V genE genC raw 3).attempt = 3 := by
  intro V genE genC raw hE hC
  obtain ⟨e1, he1⟩ := hE raw
  obtain ⟨e2, he2⟩ := hC (pyStrip (genE raw)) e1
  obtain ⟨e3, he3⟩ := hC (pyStrip (genC (pyStrip (genE raw)) e1)) e2
  have h1 : ((3 : Int) - 1).toNat = 2 := rfl
  simp [run_agent, run_agentE, _llm_extract, _validate, _llm_correct, inc_attempt,
    _should_retry, runLoop, h1, he1, he2, he3,
    List.countP_cons, isValidateEntry, isValidateFailEntry, isCorrectEntry,
    validateAttempts, correctAttempts]

/-- Witness for C1 at a concrete always-failing validation function. -/
theorem C1_budget_exhaustion_witness :
    ((∀ r, ∃ e, failV (pyStrip (((fun _ => "out") : String → String) r)) = .error e) ∧
     (∀ p q, ∃ e, failV (pyStrip (((fun _ _ => "fix") : String → String → String) p q)) = .error e)) ∧
    ((run_agent failV (fun _ => "out") (fun _ _ => "fix") "raw" 3).result = Option.none ∧
     (run_agent failV (fun _ => "out") (fun _ _ => "fix") "raw" 3).log.countP isValidateEntry = 3 ∧
     (run_agent failV (fun _ => "out") (fun _ _ => "fix") "raw" 3).log.countP isValidateFailEntry = 3 ∧
     (run_agent failV (fun _ => "out") (fun _ _ => "fix") "raw" 3).log.countP isCorrectEntry = 2 ∧
     validateAttempts (run_agent failV (fun _ => "out") (fun _ _ => "fix") "raw" 3).log = [1, 2, 3] ∧
     correctAttempts (run_agent failV (fun _ => "out") (fun _ _ => "fix") "raw" 3).log = [1, 2] ∧
     (run_agent failV (fun _ => "out") (fun _ _ => "fix") "raw" 3).attempt = 3) :=
  ⟨⟨fun _ => ⟨"invalid", rfl⟩, fun _ _ => ⟨"invalid", rfl⟩⟩,
   C1_budget_exhaustion failV (fun _ => "out") (fun _ _ => "fix") "raw"
     (fun _ => ⟨"invalid", rfl⟩) (fun _ _ => ⟨"invalid", rfl⟩)⟩

/-- C2: with `max_attempts = 1`, for every input text and every generator
and validation behaviour, the run performs a single extract-then-validate
pass: the terminal log has exactly one extract entry, one validate entry
and no correct entry, whether or not that single validation passes. -/
theorem C2_single_pass :
    ∀ (V : String → Except String ExtractedData) (genE : String → String)
      (genC : String → String → String) (raw : String),
      (run_agent V genE genC raw 1).log.countP isExtractEntry = 1 ∧
      (run_agent V genE genC raw 1).log.countP isValidateEntry = 1 ∧
      (run_agent V genE genC raw 1).log.countP isCorrectEntry = 0 := by
  intro V genE genC raw
  have h1 : ((1 : Int) - 1).toNat = 0 := rfl
  cases hV : V (pyStrip (genE raw)) with
  | ok d =>
    simp [run_agent, run_agentE, _llm_extract, _validate, runLoop, h1, hV,
      List.countP_cons, isExtractEntry, isValidateEntry, isCorrectEntry]
  | error e =>
    simp [run_agent, run_agentE, _llm_extract, _validate, runLoop, h1, hV,
      List.countP_cons, isExtractEntry, isValidateEntry, isCorrectEntry]

/-- C10: with any `max_attempts ≤ 1` — including zero and negative values
— the run still performs exactly one extract step and one validate step,
never a correct step, and the attempt counter remains at its starting
value 1 (so `attempt ≥ max_attempts` already holds at the first
validation). -/
theorem C10_low_budget_single_pass :
    ∀ (V : String → Except String ExtractedData) (genE : String → String)
      (genC : String → String → String) (raw : String) (ma : Int),
      ma ≤ 1 →
      (run_agent V genE genC raw ma).log.countP isExtractEntry = 1 ∧
      (run_agent V genE genC raw ma).log.countP isValidateEntry = 1 ∧
      (run_agent V genE genC raw ma).log.countP isCorrectEntry = 0 ∧
      (run_agent V genE genC raw ma).attempt = 1 := by
  intro V genE genC raw ma hma
  have h1 : (ma - 1).toNat = 0 := by omega
  cases hV : V (pyStrip (genE raw)) with
  | ok d =>
    simp [run_agent, run_agentE, _llm_extract, _validate, runLoop, h1, hV,
      List.countP_cons, isExtractEntry, isValidateEntry, isCorrectEntry]
  | error e =>
    simp [run_agent, run_agentE, _llm_extract, _validate, runLoop, h1, hV,
      List.countP_cons, isExtractEntry, isValidateEntry, isCorrectEntry]

/-- Witness for C10 at `max_attempts = -2` with a failing validation. -/
theorem C10_low_budget_single_pass_witness :
    ((-2 : Int) ≤ 1) ∧
    ((run_agent failV (fun _ => "out") (fun _ _ => "fix") "raw" (-2)).log.countP isExtractEntry = 1 ∧
     (run_agent failV (fun _ => "out") (fun _ _ => "fix") "raw" (-2)).log.countP isValidateEntry = 1 ∧
     (run_agent failV (fun _ => "out") (fun _ _ => "fix") "raw" (-2)).log.countP isCorrectEntry = 0 ∧
     (run_agent failV (fun _ => "out") (fun _ _ => "fix") "raw" (-2)).attempt = 1) :=
  ⟨by norm_num,
   C10_low_budget_single_pass failV (fun _ => "out") (fun _ _ => "fix") "raw" (-2) (by norm_num)⟩

/-! ## Claims about the offline harness -/

/-- The offline loop appends at most two log entries per candidate. -/
theorem offlineLoop_log_le (V : String → Except String ExtractedData) :
    ∀ (cs : List String) (a : Int) (log : List LogEntry) (last : String),
      (offlineLoop V cs a log last).log.length ≤ log.length + 2 * cs.length := by
  intro cs
  induction cs with
  | nil => intro a log last; simp [offlineLoop]
  | cons c cs ih =>
    intro a log last
    simp only [offlineLoop]
    cases hV : V c with
    | ok d => simp
    | error e =>
      have := ih (a + 1) ((log ++ [LogEntry.extract a c]) ++ [LogEntry.validateFail a e]) c
      simp only [List.length_append, List.length_cons, List.length_nil] at this ⊢
      omega

/-- When every remaining candidate fails validation, the loop exhausts
the sequence: null result, last candidate as `last_json_text`, and two log
entries per candidate. -/
theorem offlineLoop_allFail (V : String → Except String ExtractedData) :
    ∀ (cs : List String) (a : Int) (log : List LogEntry) (last : String),
      (∀ c ∈ cs, ∀ d, V c ≠ .ok d) →
      (offlineLoop V cs a log last).result = Option.none ∧
      (offlineLoop V cs a log last).last_json_text = cs.getLastD last ∧
      (offlineLoop V cs a log last).log.length = log.length + 2 * cs.length := by
  intro cs
  induction cs with
  | nil => intro a log last _; refine ⟨rfl, rfl, by simp [offlineLoop]⟩
  | cons c cs ih =>
    intro a log last h
    simp only [offlineLoop]
    cases hV : V c with
    | ok d => exact absurd hV (h c (by simp) d)
    | error e =>
      obtain ⟨h1, h2, h3⟩ := ih (a + 1) ((log ++ [LogEntry.extract a c]) ++ [LogEntry.validateFail a e]) c
        (fun x hx => h x (by simp [hx]))
      refine ⟨h1, ?_, ?_⟩
      · rw [h2, List.getLastD_cons]
      · simp only [List.length_append, List.length_cons, List.length_nil] at h3 ⊢
        omega

/-- The loop stops at the first passing candidate: its dump is the result,
it becomes `last_json_text`, and only the failing prefix contributed
further log entries. -/
theorem offlineLoop_firstPass (V : String → Except String ExtractedData) :
    ∀ (pre : List String) (c : String) (post : List String) (a : Int)
      (log : List LogEntry) (last : String) (d : ExtractedData),
      (∀ x ∈ pre, ∀ dd, V x ≠ .ok dd) → V c = .ok d →
      (offlineLoop V (pre ++ c :: post) a log last).result = some d.dump ∧
      (offlineLoop V (pre ++ c :: post) a log last).last_json_text = c ∧
      (offlineLoop V (pre ++ c :: post) a log last).log.length = log.length + 2 * pre.length + 2 := by
  intro pre
  induction pre with
  | nil =>
    intro c post a log last d _ hc
    simp only [List.nil_append, offlineLoop]
    rw [hc]
    simp
  | cons x pre ih =>
    intro c post a log last d h hc
    simp only [List.cons_append, offlineLoop, List.append_eq]
    cases hV : V x with
    | ok dd => exact absurd hV (h x (by simp) dd)
    | error e =>
      obtain ⟨h1, h2, h3⟩ := ih c post (a + 1) ((log ++ [LogEntry.extract a x]) ++ [LogEntry.validateFail a e]) x d
        (fun y hy => h y (by simp [hy])) hc
      refine ⟨h1, h2, ?_⟩
      simp only [List.append_eq, List.length_append, List.length_cons, List.length_nil] at h3 ⊢
      omega

/-- C4: `run_offline_agent` replays the candidates in order, validating
each in turn.  Concretely, for `[invalid, valid]` with `max_attempts = 2`
the result is the valid document's dump and the log has 4 ≥ 3 entries; in
general it stops at the first passing candidate of the considered slice,
considers at most `max_attempts` candidates, and when every considered
candidate fails it returns a null result with the full ordered log and the
last candidate seen. -/
theorem C4_offline_replay :
    (∀ (V : String → Except String ExtractedData) (raw c1 c2 e1 : String) (d : ExtractedData),
       V c1 = .error e1 → V c2 = .ok d →
       run_offline_agent V raw [c1, c2] 2 =
         ⟨some d.dump, [.extract 1 c1, .validateFail 1 e1, .extract 2 c2, .validatePass 2], c2⟩ ∧
       3 ≤ (run_offline_agent V raw [c1, c2] 2).log.length)
    ∧ (∀ (V : String → Except String ExtractedData) (raw : String) (cs : List String) (ma : Int)
         (pre : List String) (c : String) (post : List String) (d : ExtractedData),
        pySliceTo cs ma = pre ++ c :: post →
        (∀ x ∈ pre, ∀ dd, V x ≠ .ok dd) → V c = .ok d →
        (run_offline_agent V raw cs ma).result = some d.dump ∧
        (run_offline_agent V raw cs ma).last_json_text = c ∧
        (run_offline_agent V raw cs ma).log.length = 2 * pre.length + 2)
    ∧ (∀ (V : String → Except String ExtractedData) (raw : String) (cs : List String) (ma : Int),
        (∀ c ∈ pySliceTo cs ma, ∀ d, V c ≠ .ok d) →
        (run_offline_agent V raw cs ma).result = Option.none ∧
        (run_offline_agent V raw cs ma).last_json_text = (pySliceTo cs ma).getLastD "" ∧
        (run_offline_agent V raw cs ma).log.length = 2 * (pySliceTo cs ma).length)
    ∧ (∀ (V : String → Except String ExtractedData) (raw : String) (cs : List String) (ma : Int),
        (run_offline_agent V raw cs ma).log.length ≤ 2 * (pySliceTo cs ma).length ∧
        (0 ≤ ma → (pySliceTo cs ma).length ≤ ma.toNat)) := by
  refine ⟨?_, ?_, ?_, ?_⟩
  · intro V raw c1 c2 e1 d h1 h2
    have hs : pySliceTo [c1, c2] 2 = [c1, c2] := rfl
    constructor
    · simp only [run_offline_agent, hs, offlineLoop]
      rw [h1, h2]
      norm_num
    · simp only [run_offline_agent, hs, offlineLoop]
      rw [h1, h2]
      simp
  · intro V raw cs ma pre c post d hs hpre hc
    have := offlineLoop_firstPass V pre c post 1 [] "" d hpre hc
    simp only [run_offline_agent, hs]
    simpa using this
  · intro V raw cs ma h
    have := offlineLoop_allFail V (pySliceTo cs ma) 1 [] "" h
    simpa [run_offline_agent] using this
  · intro V raw cs ma
    constructor
    · have := offlineLoop_log_le V (pySliceTo cs ma) 1 [] ""
      simpa [run_offline_agent] using this
    · intro hma
      simp only [pySliceTo, if_pos hma]
      simp


/-! ## Transport-failure semantics -/

/-- C5: a transport error raised by a generator call aborts the run
immediately and surfaces as a `transportFailure` outcome, which no
terminal `ok` state (in particular the budget-exhausted `result = none`
one) equals; the audit log accumulated before the failing call is carried
unchanged.  First conjunct: failure during the initial extract call —
nothing was logged yet.  Second conjunct: failure during the first correct
call (budget ≥ 2, first validation failed) — the log is exactly the
extract entry and the failed validate entry, with no correct entry. -/
theorem C5_transport_failure :
    ∀ (V : String → Except String ExtractedData)
      (genC : String → String → Except String String) (raw err : String) (ma : Int),
      (run_agentE V (fun _ => .error err) genC raw ma =
        .transportFailure err
          { raw_text := raw, attempt := 1, max_attempts := ma, last_json_text := "",
            validation_error := "", result := Option.none, log := [] } ∧
        ∀ fin, run_agentE V (fun _ => .error err) genC raw ma ≠ .ok fin)
    ∧ (∀ t e1 : String, V (pyStrip t) = .error e1 → 2 ≤ ma →
        ∃ ps, run_agentE V (fun _ => .ok t) (fun _ _ => .error err) raw ma =
            .transportFailure err ps ∧
          ps.log = [.extract 1 (pyTake (pyStrip t) 2000), .validateFail 1 (pyTake e1 2000)] ∧
          ps.result = Option.none ∧
          ∀ fin, run_agentE V (fun _ => .ok t) (fun _ _ => .error err) raw ma ≠ .ok fin) := by
  intro V genC raw err ma
  constructor
  · exact ⟨rfl, by simp [run_agentE, _llm_extract]⟩
  · intro t e1 hV hma
    have hk : (ma - 1).toNat = (ma - 2).toNat + 1 := by omega
    have hlt : ¬((1 : Int) ≥ ma) := by omega
    refine ⟨{ raw_text := raw, attempt := 1, max_attempts := ma,
              last_json_text := pyStrip t, validation_error := e1, result := Option.none,
              log := [.extract 1 (pyTake (pyStrip t) 2000),
                      .validateFail 1 (pyTake e1 2000)] }, ?_, rfl, rfl, ?_⟩ <;>
      simp [run_agentE, _llm_extract, _validate, _llm_correct, _should_retry,
        runLoop, hk, hV, hlt]

end Agent
